import Mathlib

/-!
Verification of the list view-state engine of `src/pages/Dashboard.tsx`.

The dashboard keeps five pieces of view state (search text, page, page
size, sort key, sort order), derives filtered / sorted / paginated views
of a fixed comment collection, and persists the five fields to the
browser's local storage, restoring them once after the initial fetch.

Modelling conventions:
* JS strings are lists of characters; `toLowerCase` is `Char.toLower`
  mapped over the list (the dashboard data is ASCII).
* JS numbers are integers (`Int`).  The only place a non-integral JS
  number could enter the state is `Number(...)` applied to a persisted
  string during hydration; `jsNumberInt` returns `Option.none` for any
  string whose JS numeric value would not be an integer, and `hydrate`
  is `Option`-valued so that such stores fall outside the model instead
  of being given invented semantics.
* `Array.prototype.sort` is stable with a consistent comparator
  (ES2019), modelled by `List.mergeSort` with the boolean order
  `comparator a b ≤ 0`.
-/

/-- A JS string, modelled as its list of characters. -/
abbrev JsString := List Char

/-- The comment record shape fetched by the dashboard
(`interface Comment` in `Dashboard.tsx`). -/
structure Comment where
  postId : Int
  id : Int
  name : JsString
  email : JsString
  body : JsString
deriving DecidableEq

/-- The sortable columns (`type SortKey = "postId" | "name" | "email"`). -/
inductive SortKey where
  | postId
  | name
  | email
deriving DecidableEq

/-- The sort direction (`type SortOrder = "asc" | "desc" | "none"`). -/
inductive SortOrder where
  | asc
  | desc
  | none
deriving DecidableEq

/-- The five state variables owned by the `Dashboard` component:
`search`, `page`, `pageSize`, `sortKey`, `sortOrder`.  `sortKey` is
`null`-able in the source (`useState<SortKey | null>(null)`), modelled
with `Option`. -/
structure ViewState where
  search : JsString
  page : Int
  pageSize : Int
  sortKey : Option SortKey
  sortOrder : SortOrder
deriving DecidableEq

/-- The initial state of the five `useState` hooks:
`""`, `1`, `10`, `null`, `"none"`. -/
def initialState : ViewState :=
  { search := [], page := 1, pageSize := 10,
    sortKey := Option.none, sortOrder := SortOrder.none }

/-- JS `String.prototype.toLowerCase` on the ASCII data of the dashboard. -/
def jsToLower (s : JsString) : JsString := s.map Char.toLower

/-- JS `String.prototype.includes`: `sub` occurs contiguously in `s`. -/
def jsIncludes (s sub : JsString) : Bool := decide (sub <:+: s)

/-- The filter predicate of the `filtered` memo:
`[c.name, c.email, c.body].some((field) => field.toLowerCase().includes(query))`
where `query = search.toLowerCase()`. -/
def matchesQuery (q : JsString) (c : Comment) : Bool :=
  [c.name, c.email, c.body].any fun field => jsIncludes (jsToLower field) (jsToLower q)

/-- The `filtered` memo: `comments.filter((c) => ...)`. -/
def filteredView (s : ViewState) (C : List Comment) : List Comment :=
  C.filter (matchesQuery s.search)

/-- Comparison of two comments on one key value, as a boolean `≤`.
`postId` compares numerically; `name` and `email` compare with the JS
`<` / `>` string operators, i.e. lexicographically by character code
(the lexicographic linear order on `List Char`). -/
def keyLe (k : SortKey) (a b : Comment) : Bool :=
  match k with
  | SortKey.postId => decide (a.postId ≤ b.postId)
  | SortKey.name => decide (a.name ≤ b.name)
  | SortKey.email => decide (a.email ≤ b.email)

/-- Boolean equality of the sort-key values of two comments. -/
def keyEq (k : SortKey) (a b : Comment) : Bool :=
  match k with
  | SortKey.postId => decide (a.postId = b.postId)
  | SortKey.name => decide (a.name = b.name)
  | SortKey.email => decide (a.email = b.email)

/-- The order in which the comparator of the `sorted` memo places `a`
before (or level with) `b`: the comparator returns `-1`/`1` on strict
inequality, choosing the sign by `sortOrder === "asc"`, so any order
other than `asc` compares in reverse. -/
def sortLe (k : SortKey) (o : SortOrder) (a b : Comment) : Bool :=
  match o with
  | SortOrder.asc => keyLe k a b
  | _ => keyLe k b a

/-- The `sorted` memo:
`if (!sortKey || sortOrder === "none") return filtered;` and otherwise a
stable sort of a copy of `filtered` by the comparator. -/
def sortedView (s : ViewState) (C : List Comment) : List Comment :=
  match s.sortKey, s.sortOrder with
  | Option.none, _ => filteredView s C
  | Option.some _, SortOrder.none => filteredView s C
  | Option.some k, o => (filteredView s C).mergeSort (sortLe k o)

/-- Resolution of one JS `Array.prototype.slice` index against a length:
negative indices count from the end (clamped at `0`), non-negative ones
are clamped at the length. -/
def jsSliceIdx (len : Nat) (i : Int) : Nat :=
  if i < 0 then (len + i).toNat else min i.toNat len

/-- JS `Array.prototype.slice(start, stop)` for integer arguments. -/
def jsSlice (l : List α) (start stop : Int) : List α :=
  (l.take (jsSliceIdx l.length stop)).drop (jsSliceIdx l.length start)

/-- JS `Math.ceil(len / ps)` for a natural `len` and integer `ps`.  For
`ps < 0` the quotient is non-positive and ceiling rounds toward zero.
`ps = 0` would give `Infinity` (or `NaN` for `len = 0`) in JS, which the
integer model cannot represent; the dashboard itself only ever divides
by `10`, `25`, `50` or `100`. -/
def jsCeilDiv (len : Nat) (ps : Int) : Int :=
  if ps < 0 then -((len / (-ps).toNat : Nat) : Int)
  else if ps = 0 then 0
  else (((len + ps.toNat - 1) / ps.toNat : Nat) : Int)

/-- The derived `totalPages = Math.ceil(sorted.length / pageSize)`.
Note the source applies no minimum: an empty `sorted` gives `0`. -/
def totalPagesView (s : ViewState) (C : List Comment) : Int :=
  jsCeilDiv (sortedView s C).length s.pageSize

/-- The derived `paginated = sorted.slice((page - 1) * pageSize, page * pageSize)`. -/
def paginatedView (s : ViewState) (C : List Comment) : List Comment :=
  jsSlice (sortedView s C) ((s.page - 1) * s.pageSize) (s.page * s.pageSize)

/-- The `handleSort` click handler: a different key jumps to
`(key, asc)`; the current key advances `none → asc → desc → none`,
clearing the key on reaching `none`; every invocation ends with
`setPage(1)`. -/
def handleSort (s : ViewState) (k : SortKey) : ViewState :=
  if s.sortKey ≠ Option.some k then
    { s with sortKey := Option.some k, sortOrder := SortOrder.asc, page := 1 }
  else if s.sortOrder = SortOrder.none then
    { s with sortOrder := SortOrder.asc, page := 1 }
  else if s.sortOrder = SortOrder.asc then
    { s with sortOrder := SortOrder.desc, page := 1 }
  else
    { s with sortOrder := SortOrder.none, sortKey := Option.none, page := 1 }

/-- The `handleReset` click handler: all five fields back to their
defaults. -/
def handleReset (_ : ViewState) : ViewState := initialState

/-- The search `Input` `onChange` handler: `setSearch(value); setPage(1)`. -/
def setSearchOp (s : ViewState) (q : JsString) : ViewState :=
  { s with search := q, page := 1 }

/-- The active-filter badge and the empty-state button both run
`setSearch("")` without touching `page`. -/
def clearSearchOp (s : ViewState) : ViewState :=
  { s with search := [] }

/-- The items-per-page `Select` `onValueChange`: `setPageSize(n); setPage(1)`. -/
def setPageSizeOp (s : ViewState) (n : Int) : ViewState :=
  { s with pageSize := n, page := 1 }

/-- The sort badge button: `setSortKey(null); setSortOrder("none")`,
without touching `page`. -/
def clearSortOp (s : ViewState) : ViewState :=
  { s with sortKey := Option.none, sortOrder := SortOrder.none }

/-- The `First` pagination button: `setPage(1)`. -/
def pageFirstOp (s : ViewState) : ViewState := { s with page := 1 }

/-- The `Previous` pagination button: `setPage((p) => Math.max(p - 1, 1))`. -/
def pagePrevOp (s : ViewState) : ViewState := { s with page := max (s.page - 1) 1 }

/-- The `Next` pagination button: `setPage((p) => Math.min(p + 1, totalPages))`. -/
def pageNextOp (C : List Comment) (s : ViewState) : ViewState :=
  { s with page := min (s.page + 1) (totalPagesView s C) }

/-- The `Last` pagination button: `setPage(totalPages)`. -/
def pageLastOp (C : List Comment) (s : ViewState) : ViewState :=
  { s with page := totalPagesView s C }

/-- The label of the `i`-th numbered pagination button, following the
five-button window computation in the render. -/
def pageNumButton (tp page : Int) (i : Nat) : Int :=
  if tp ≤ 5 then (i : Int) + 1
  else if page ≤ 3 then (i : Int) + 1
  else if page ≥ tp - 2 then tp - 4 + (i : Int)
  else page - 2 + (i : Int)

/-- Clicking the `i`-th numbered pagination button: `setPage(pageNum)`. -/
def pageGotoOp (C : List Comment) (s : ViewState) (i : Nat) : ViewState :=
  { s with page := pageNumButton (totalPagesView s C) s.page i }

/-- The page sizes offered by the items-per-page `Select`. -/
def allowedPageSizes : List Int := [10, 25, 50, 100]

/-- States reachable from the initial state through the interactions the
rendered dashboard offers, for a fixed fetched collection `C`.  The five
pagination controls only render when `totalPages > 1`, and the page-size
select only offers the four listed sizes. -/
inductive Reachable (C : List Comment) : ViewState → Prop where
  | init : Reachable C initialState
  | search (q : JsString) : Reachable C s → Reachable C (setSearchOp s q)
  | clearSearch : Reachable C s → Reachable C (clearSearchOp s)
  | pageSizeSel : Reachable C s → n ∈ allowedPageSizes → Reachable C (setPageSizeOp s n)
  | sort (k : SortKey) : Reachable C s → Reachable C (handleSort s k)
  | clearSort : Reachable C s → Reachable C (clearSortOp s)
  | reset : Reachable C s → Reachable C (handleReset s)
  | first : Reachable C s → 1 < totalPagesView s C → Reachable C (pageFirstOp s)
  | prev : Reachable C s → 1 < totalPagesView s C → Reachable C (pagePrevOp s)
  | next : Reachable C s → 1 < totalPagesView s C → Reachable C (pageNextOp C s)
  | last : Reachable C s → 1 < totalPagesView s C → Reachable C (pageLastOp C s)
  | goto : Reachable C s → 1 < totalPagesView s C →
      (i : Nat) → (i : Int) < min 5 (totalPagesView s C) → Reachable C (pageGotoOp C s i)

/-- The page bound stated by the spec: `max(1, ceil(filteredCount / pageSize))`. -/
def pageBound (s : ViewState) (C : List Comment) : Int :=
  max 1 (jsCeilDiv (filteredView s C).length s.pageSize)

/-- Fuel-driven construction of the decimal digits of a natural number,
most significant first; `fuel > n` suffices because each step divides
`n` by ten.  Structural recursion keeps the definition kernel-reducible. -/
def natDigitsAux : Nat → Nat → JsString
  | 0, _ => []
  | fuel + 1, n =>
    if n < 10 then [Char.ofNat (48 + n)]
    else natDigitsAux fuel (n / 10) ++ [Char.ofNat (48 + n % 10)]

/-- The decimal digits of a natural number, most significant first, as
produced by JS `String(n)` for a non-negative integer. -/
def natDigits (n : Nat) : JsString := natDigitsAux (n + 1) n

/-- JS `String(i)` for an integer `i`. -/
def jsStringOfInt (i : Int) : JsString :=
  if i < 0 then '-' :: natDigits (-i).toNat else natDigits i.toNat

/-- The numeric value of a decimal digit character. -/
def digitVal (c : Char) : Nat := c.toNat - 48

/-- The natural number denoted by a string of decimal digits. -/
def digitsToNat (l : JsString) : Nat := l.foldl (fun a c => a * 10 + digitVal c) 0

/-- JS `Number(s)` restricted to the strings denoting integers in plain
decimal notation (an optional leading minus sign followed by digits).
`Option.none` stands for every other result — `NaN`, a fractional
value, or an exotic admissible syntax (hex, exponent, padding) — which
the integer model does not represent. -/
def jsNumberInt (l : JsString) : Option Int :=
  if l = [] then Option.some 0
  else if l.head? = Option.some '-' then
    if l.drop 1 ≠ [] ∧ (l.drop 1).all Char.isDigit then
      Option.some (-((digitsToNat (l.drop 1) : Nat) : Int))
    else Option.none
  else if l.all Char.isDigit then Option.some ((digitsToNat l : Nat) : Int)
  else Option.none

/-- The five local-storage slots the dashboard uses; `getItem` returns
`null` for an absent key, modelled by `Option.none`. -/
structure PrefStore where
  search : Option JsString
  page : Option JsString
  pageSize : Option JsString
  sortKey : Option JsString
  sortOrder : Option JsString
deriving DecidableEq

/-- A store in which every key is absent. -/
def emptyStore : PrefStore :=
  { search := Option.none, page := Option.none, pageSize := Option.none,
    sortKey := Option.none, sortOrder := Option.none }

/-- The string form of a sort key, as it appears in local storage. -/
def sortKeyName (k : SortKey) : JsString :=
  match k with
  | SortKey.postId => "postId".toList
  | SortKey.name => "name".toList
  | SortKey.email => "email".toList

/-- The string form of a sort order, as it appears in local storage. -/
def sortOrderName (o : SortOrder) : JsString :=
  match o with
  | SortOrder.asc => "asc".toList
  | SortOrder.desc => "desc".toList
  | SortOrder.none => "none".toList

/-- The persistence effect: after every state change the dashboard
writes all five keys, stringifying the numbers, encoding a cleared sort
key as `sortKey || ""`, and the sort order by its name. -/
def persist (s : ViewState) : PrefStore :=
  { search := Option.some s.search,
    page := Option.some (jsStringOfInt s.page),
    pageSize := Option.some (jsStringOfInt s.pageSize),
    sortKey := Option.some (match s.sortKey with
      | Option.some k => sortKeyName k
      | Option.none => []),
    sortOrder := Option.some (sortOrderName s.sortOrder) }

/-- One string-valued hydration step, `if (savedX) setX(savedX)`: an
absent or empty value (both falsy) leaves the default in place. -/
def hydrateStr (saved : Option JsString) (dflt : JsString) : JsString :=
  match saved with
  | Option.none => dflt
  | Option.some v => if v = [] then dflt else v

/-- One numeric hydration step, `if (savedX) setX(Number(savedX))`: an
absent or empty value leaves the default; any other value goes through
`Number` unvalidated.  The result is `Option.none` exactly when the JS
number would not be an integer (see `jsNumberInt`). -/
def hydrateNum (saved : Option JsString) (dflt : Int) : Option Int :=
  match saved with
  | Option.none => Option.some dflt
  | Option.some v => if v = [] then Option.some dflt else jsNumberInt v

/-- The sort-key hydration step, `if (savedSortKey) setSortKey(savedSortKey)`.
The source casts the raw string to `SortKey` without checking it; a
non-empty string other than the three key names would smuggle an
arbitrary string into the state, which the typed model cannot
represent, so such stores are mapped to `Option.none` (outside the
model) rather than to a default. -/
def hydrateSortKey (saved : Option JsString) : Option (Option SortKey) :=
  match saved with
  | Option.none => Option.some Option.none
  | Option.some v =>
    if v = [] then Option.some Option.none
    else if v = sortKeyName SortKey.postId then Option.some (Option.some SortKey.postId)
    else if v = sortKeyName SortKey.name then Option.some (Option.some SortKey.name)
    else if v = sortKeyName SortKey.email then Option.some (Option.some SortKey.email)
    else Option.none

/-- The sort-order hydration step, `if (savedSortOrder) setSortOrder(savedSortOrder)`,
with the same unchecked cast as the sort key; note that the stored
string `"none"` is truthy and is applied. -/
def hydrateSortOrder (saved : Option JsString) : Option SortOrder :=
  match saved with
  | Option.none => Option.some SortOrder.none
  | Option.some v =>
    if v = [] then Option.some SortOrder.none
    else if v = sortOrderName SortOrder.asc then Option.some SortOrder.asc
    else if v = sortOrderName SortOrder.desc then Option.some SortOrder.desc
    else if v = sortOrderName SortOrder.none then Option.some SortOrder.none
    else Option.none

/-- The hydration block run once after the fetch resolves: each of the
five keys is read and, when truthy, applied over the initial state with
no validation or clamping.  `Option.none` means the store lies outside
the integer-and-known-names fragment the model represents. -/
def hydrate (st : PrefStore) : Option ViewState := do
  let page ← hydrateNum st.page 1
  let pageSize ← hydrateNum st.pageSize 10
  let sortKey ← hydrateSortKey st.sortKey
  let sortOrder ← hydrateSortOrder st.sortOrder
  pure { search := hydrateStr st.search [], page := page, pageSize := pageSize,
         sortKey := sortKey, sortOrder := sortOrder }

lemma digitsToNat_append (l : JsString) (c : Char) :
    digitsToNat (l ++ [c]) = digitsToNat l * 10 + digitVal c := by
  simp [digitsToNat, List.foldl_append]

lemma digitVal_ofNat {d : Nat} (hd : d < 10) :
    digitVal (Char.ofNat (48 + d)) = d ∧ (Char.ofNat (48 + d)).isDigit = true := by
  interval_cases d <;> exact ⟨by decide, by decide⟩

lemma natDigitsAux_spec : ∀ (fuel n : Nat), n < fuel →
    natDigitsAux fuel n ≠ [] ∧ (natDigitsAux fuel n).all Char.isDigit = true ∧
      digitsToNat (natDigitsAux fuel n) = n := by
  intro fuel
  induction fuel with
  | zero => intro n h; omega
  | succ f ih =>
    intro n h
    by_cases h10 : n < 10
    · simp only [natDigitsAux, if_pos h10]
      refine ⟨by simp, ?_, ?_⟩
      · simp [(digitVal_ofNat h10).2]
      · simp [digitsToNat, (digitVal_ofNat h10).1]
    · have hf : n / 10 < f := by
        have h1 : n / 10 < n := Nat.div_lt_self (by omega) (by omega)
        omega
      obtain ⟨hne, hall, hval⟩ := ih (n / 10) hf
      simp only [natDigitsAux, if_neg h10]
      refine ⟨by simp, ?_, ?_⟩
      · have hd := (digitVal_ofNat (d := n % 10) (Nat.mod_lt _ (by omega))).2
        simp [List.all_append, hall, hd]
      · rw [digitsToNat_append, hval, (digitVal_ofNat (Nat.mod_lt _ (by omega))).1]
        omega

lemma natDigits_spec (n : Nat) :
    natDigits n ≠ [] ∧ (natDigits n).all Char.isDigit = true ∧
      digitsToNat (natDigits n) = n :=
  natDigitsAux_spec _ _ (Nat.lt_succ_self n)

lemma jsNumberInt_natDigits (n : Nat) :
    jsNumberInt (natDigits n) = Option.some ((n : Nat) : Int) := by
  obtain ⟨hne, hall, hval⟩ := natDigits_spec n
  obtain ⟨c, cs, hcons⟩ := List.exists_cons_of_ne_nil hne
  have hcd : c.isDigit = true := by
    rw [hcons] at hall
    simp only [List.all_cons, Bool.and_eq_true] at hall
    exact hall.1
  have hhead : ¬ (natDigits n).head? = Option.some '-' := by
    rw [hcons]
    simp only [List.head?_cons, Option.some.injEq]
    intro hc
    rw [hc] at hcd
    exact absurd hcd (by decide)
  unfold jsNumberInt
  rw [if_neg hne, if_neg hhead, if_pos hall, hval]

lemma jsStringOfInt_ne_nil (i : Int) : jsStringOfInt i ≠ [] := by
  unfold jsStringOfInt
  split
  · simp
  · exact (natDigits_spec _).1

lemma jsNumberInt_jsStringOfInt (i : Int) :
    jsNumberInt (jsStringOfInt i) = Option.some i := by
  unfold jsStringOfInt
  by_cases hi : i < 0
  · rw [if_pos hi]
    obtain ⟨hne, hall, hval⟩ := natDigits_spec (-i).toNat
    unfold jsNumberInt
    rw [if_neg (by simp), if_pos (by simp)]
    simp only [List.drop_succ_cons, List.drop_zero]
    rw [if_pos ⟨hne, hall⟩, hval]
    congr 1
    omega
  · rw [if_neg hi, jsNumberInt_natDigits]
    congr 1
    omega

lemma hydrateNum_persisted (i : Int) (dflt : Int) :
    hydrateNum (Option.some (jsStringOfInt i)) dflt = Option.some i := by
  simp only [hydrateNum, if_neg (jsStringOfInt_ne_nil i)]
  exact jsNumberInt_jsStringOfInt i

lemma hydrateStr_persisted (v : JsString) : hydrateStr (Option.some v) [] = v := by
  by_cases h : v = [] <;> simp [hydrateStr, h]

lemma hydrateSortKey_persisted (sk : Option SortKey) :
    hydrateSortKey (Option.some (match sk with
      | Option.some k => sortKeyName k
      | Option.none => [])) = Option.some sk := by
  cases sk with
  | none => decide
  | some k => cases k <;> decide

lemma hydrateSortOrder_persisted (o : SortOrder) :
    hydrateSortOrder (Option.some (sortOrderName o)) = Option.some o := by
  cases o <;> decide

/-- C9. Persisting any view state (search as-is, numbers stringified,
a cleared sort key encoded as the empty string, the sort order by name)
and hydrating from the resulting store reconstructs exactly that state. -/
theorem persist_hydrate_roundtrip (s : ViewState) :
    hydrate (persist s) = Option.some s := by
  obtain ⟨q, p, ps, sk, so⟩ := s
  simp only [hydrate, persist, hydrateNum_persisted, hydrateStr_persisted,
    hydrateSortKey_persisted, hydrateSortOrder_persisted, Option.bind_eq_bind,
    Option.some_bind, Option.pure_def]

lemma ceilNat_spec (len p : Nat) (hp : 0 < p) :
    len ≤ ((len + p - 1) / p) * p ∧ ((len + p - 1) / p = 0 ↔ len = 0) ∧
      (0 < len → ((len + p - 1) / p - 1) * p < len) := by
  rcases Nat.eq_zero_or_pos len with h0 | hlen
  · subst h0
    have hz : (p - 1) / p = 0 := Nat.div_eq_of_lt (by omega)
    simp [hz]
  · have hdm := Nat.div_add_mod (len + p - 1) p
    have hr : (len + p - 1) % p < p := Nat.mod_lt _ hp
    set q := (len + p - 1) / p with hq
    rw [Nat.mul_comm] at hdm
    rcases Nat.eq_zero_or_pos q with hq0 | hq1
    · exfalso
      rw [hq0, Nat.zero_mul] at hdm
      omega
    · have h1 : (q - 1) * p = q * p - p := Nat.sub_one_mul q p
      refine ⟨by omega, ⟨by omega, by omega⟩, fun _ => by omega⟩

lemma jsCeilDiv_spec (len : Nat) (ps : Int) (hps : 0 < ps) :
    (len : Int) ≤ jsCeilDiv len ps * ps ∧ (jsCeilDiv len ps = 0 ↔ len = 0) ∧
      (0 < len → (jsCeilDiv len ps - 1) * ps < (len : Int)) := by
  unfold jsCeilDiv
  rw [if_neg (by omega), if_neg (by omega)]
  obtain ⟨h1, h2, h3⟩ := ceilNat_spec len ps.toNat (by omega)
  set q := (len + ps.toNat - 1) / ps.toNat with hq
  have hcast : ((ps.toNat : Nat) : Int) = ps := by omega
  refine ⟨?_, ?_, ?_⟩
  · calc (len : Int) ≤ ((q * ps.toNat : Nat) : Int) := by exact_mod_cast h1
      _ = (q : Int) * ps := by push_cast; rw [hcast]
  · constructor
    · intro h
      exact h2.mp (by exact_mod_cast h)
    · intro h
      exact_mod_cast h2.mpr h
  · intro hlen
    have h4 : (((q - 1) * ps.toNat : Nat) : Int) < (len : Int) := by
      exact_mod_cast h3 hlen
    have hq1 : 1 ≤ q := by
      rcases Nat.eq_zero_or_pos q with h0 | h0
      · exact absurd (h2.mp h0) (by omega)
      · exact h0
    have heq : ((q : Int) - 1) * ps = (((q - 1) * ps.toNat : Nat) : Int) := by
      rw [Nat.cast_mul, Nat.cast_sub hq1, hcast]
      push_cast
      ring
    rw [heq]
    exact h4

/-- C1 (amended). Hydration applies stored values without validation:
an entirely absent store hydrates to the defaults, but a stored decimal
`pageSize` or `page` is applied verbatim, whatever its value — in
particular `pageSize = "37"`, outside the allowed set, hydrates to `37`,
and no clamping or set-membership check takes place. -/
theorem hydrate_applies_values_unvalidated :
    hydrate emptyStore = Option.some initialState ∧
    (∀ n : Int, hydrate { emptyStore with pageSize := Option.some (jsStringOfInt n) } =
        Option.some { initialState with pageSize := n }) ∧
    (∀ n : Int, hydrate { emptyStore with page := Option.some (jsStringOfInt n) } =
        Option.some { initialState with page := n }) := by
  refine ⟨by decide, ?_, ?_⟩ <;> intro n <;>
    simp [hydrate, emptyStore, initialState, hydrateNum, hydrateStr, hydrateSortKey,
      hydrateSortOrder, if_neg (jsStringOfInt_ne_nil n), jsNumberInt_jsStringOfInt]

/-- C1 counterexample. The claim asserts that the persisted value
`pageSize = "37"` (outside the allowed set) falls back to the default
`10` at hydration; the source applies `Number("37") = 37` with no
validation, so the hydrated page size is `37`, not `10`. -/
theorem hydrate_pageSize37_not_defaulted :
    hydrate { emptyStore with pageSize := Option.some ("37".toList) } =
      Option.some { initialState with pageSize := 37 } ∧ (37 : Int) ≠ 10 := by
  decide

/-- C2 counterexample. On an empty collection `totalPages` is
`Math.ceil(0 / 10) = 0`, not the claimed minimum of `1`. -/
theorem totalPages_zero_on_empty :
    totalPagesView initialState [] = 0 ∧ (0 : Int) ≠ 1 := by
  decide

lemma length_sortedView (s : ViewState) (C : List Comment) :
    (sortedView s C).length = (filteredView s C).length := by
  unfold sortedView
  rcases hsk : s.sortKey with _ | k
  · rfl
  · cases hso : s.sortOrder <;> simp [List.length_mergeSort]

lemma totalPagesView_eq (s : ViewState) (C : List Comment) :
    totalPagesView s C = jsCeilDiv (filteredView s C).length s.pageSize := by
  rw [totalPagesView, length_sortedView]

/-- C2 (amended). For page sizes in the allowed set, `totalPages` is the
ceiling of `sortedCount / pageSize`: it is the least page count whose
pages cover the collection, and it is at least `1` whenever the sorted
collection is non-empty — but for an empty collection it is `0`, not
the claimed minimum of `1` (the source has no minimum-1 floor). -/
theorem totalPages_is_ceil (C : List Comment) (s : ViewState)
    (h : s.pageSize ∈ allowedPageSizes) :
    ((sortedView s C).length : Int) ≤ totalPagesView s C * s.pageSize ∧
    ((sortedView s C).length = 0 → totalPagesView s C = 0) ∧
    (0 < (sortedView s C).length →
      1 ≤ totalPagesView s C ∧
        (totalPagesView s C - 1) * s.pageSize < ((sortedView s C).length : Int)) := by
  have hps : 0 < s.pageSize := by
    simp only [allowedPageSizes, List.mem_cons, List.not_mem_nil, or_false] at h
    rcases h with h | h | h | h <;> rw [h] <;> decide
  unfold totalPagesView
  obtain ⟨h1, h2, h3⟩ := jsCeilDiv_spec (sortedView s C).length s.pageSize hps
  have h0 : 0 ≤ jsCeilDiv (sortedView s C).length s.pageSize := by
    unfold jsCeilDiv
    rw [if_neg (by omega), if_neg (by omega)]
    exact Int.natCast_nonneg _
  refine ⟨h1, fun h => h2.mpr h, fun hlen => ⟨?_, h3 hlen⟩⟩
  have hne : ¬ jsCeilDiv (sortedView s C).length s.pageSize = 0 :=
    fun h => absurd (h2.mp h) (by omega)
  omega

/-- Witness for `totalPages_is_ceil` at a one-element collection with
the default state: the hypotheses hold and `totalPages` is positive. -/
theorem totalPages_is_ceil_witness :
    1 ≤ totalPagesView initialState [{ postId := 1, id := 1, name := [], email := [], body := [] }] :=
  ((totalPages_is_ceil [{ postId := 1, id := 1, name := [], email := [], body := [] }]
    initialState (by decide)).2.2 (by decide)).1

/-- C3 counterexample. Hydration applies a persisted page number with
no clamping: from a store holding `page = "999"` and an empty comment
collection, the hydrated state has `page = 999`, far above the bound
`max(1, ceil(filteredCount / pageSize)) = 1` claimed to hold in every
reachable state. -/
theorem hydrated_page_exceeds_bound :
    hydrate { emptyStore with page := Option.some ("999".toList) } =
      Option.some { initialState with page := 999 } ∧
    ¬ ({ initialState with page := 999 } : ViewState).page ≤
        pageBound { initialState with page := 999 } [] := by
  decide

/-- C4 counterexample. Hydration can store a sort key while leaving the
sort order `none`: from a store holding only `sortKey = "name"`, the
hydrated state has `sortKey = some name` and `sortOrder = none`,
violating the claimed coupling `sortKey = none ⇔ sortOrder = none`. -/
theorem hydrated_sortKey_without_order :
    hydrate { emptyStore with sortKey := Option.some ("name".toList) } =
      Option.some { initialState with sortKey := Option.some SortKey.name } ∧
    ¬ (({ initialState with sortKey := Option.some SortKey.name } : ViewState).sortKey =
          Option.none ↔
        ({ initialState with sortKey := Option.some SortKey.name } : ViewState).sortOrder =
          SortOrder.none) := by
  refine ⟨by decide, ?_⟩
  intro h
  exact absurd (h.mpr rfl) (by decide)

/-- C10. Whenever `sortOrder = none` the `sorted` memo returns the
filtered list unchanged, regardless of `sortKey` — a hydrated state
with a key but no order behaves exactly like the unsorted state. -/
theorem sorted_eq_filtered_of_order_none (s : ViewState) (C : List Comment)
    (h : s.sortOrder = SortOrder.none) : sortedView s C = filteredView s C := by
  unfold sortedView
  rcases hsk : s.sortKey with _ | k <;> rw [h]

/-- Witness for `sorted_eq_filtered_of_order_none` at a state holding a
sort key with no order. -/
theorem sorted_eq_filtered_of_order_none_witness :
    sortedView { initialState with sortKey := Option.some SortKey.name } [] =
      filteredView { initialState with sortKey := Option.some SortKey.name } [] :=
  sorted_eq_filtered_of_order_none _ [] rfl

/-- C6. The three-state sort cycle of `handleSort`: a key different
from the current one jumps to `(key, ascending)`; the current key
advances ascending to descending and descending to none (also clearing
the key); every invocation resets `page` to `1`; three invocations on
`"name"` from the uncoupled `none` state return to `sortKey = none`,
`sortOrder = none`. -/
theorem handleSort_cycle (s : ViewState) (k : SortKey) :
    (s.sortKey ≠ Option.some k →
      handleSort s k = { s with sortKey := Option.some k, sortOrder := SortOrder.asc, page := 1 }) ∧
    (s.sortKey = Option.some k → s.sortOrder = SortOrder.asc →
      handleSort s k = { s with sortOrder := SortOrder.desc, page := 1 }) ∧
    (s.sortKey = Option.some k → s.sortOrder = SortOrder.desc →
      handleSort s k = { s with sortKey := Option.none, sortOrder := SortOrder.none, page := 1 }) ∧
    (handleSort s k).page = 1 ∧
    (s.sortKey = Option.none → s.sortOrder = SortOrder.none →
      handleSort (handleSort (handleSort s SortKey.name) SortKey.name) SortKey.name =
        { s with page := 1 }) := by
  obtain ⟨q, p, ps, sk, so⟩ := s
  refine ⟨?_, ?_, ?_, ?_, ?_⟩
  · intro h
    simp only [handleSort, if_pos h]
  · intro h1 h2
    simp_all only [handleSort]
    simp
  · intro h1 h2
    simp_all only [handleSort]
    simp
  · unfold handleSort
    split_ifs <;> rfl
  · intro h1 h2
    simp_all only []
    simp [handleSort]

/-- Witness for `handleSort_cycle`: the full ascending–descending–none
cycle on the initial state. -/
theorem handleSort_cycle_witness :
    handleSort (handleSort (handleSort initialState SortKey.name) SortKey.name) SortKey.name =
      { initialState with page := 1 } :=
  (handleSort_cycle initialState SortKey.name).2.2.2.2 rfl rfl

lemma matchesQuery_iff (q : JsString) (c : Comment) :
    matchesQuery q c =
      decide ((jsToLower q <:+: jsToLower c.name) ∨ (jsToLower q <:+: jsToLower c.email) ∨
        (jsToLower q <:+: jsToLower c.body)) := by
  simp [matchesQuery, jsIncludes, Bool.or_assoc]

lemma matchesQuery_nil (c : Comment) : matchesQuery [] c = true := by
  simp [matchesQuery, jsIncludes, jsToLower]

/-- C5. The filtered view is the subsequence of the input collection
consisting of exactly the comments in which the lower-cased query
occurs as a substring of the lower-cased `name`, `email` or `body`
(three-way disjunction, no normalization beyond lower-casing); an
empty query keeps the whole collection. -/
theorem filtered_characterization (C : List Comment) (s : ViewState) :
    (filteredView s C).Sublist C ∧
    filteredView s C = C.filter (fun c =>
      decide ((jsToLower s.search <:+: jsToLower c.name) ∨
        (jsToLower s.search <:+: jsToLower c.email) ∨
        (jsToLower s.search <:+: jsToLower c.body))) ∧
    (s.search = [] → filteredView s C = C) := by
  refine ⟨List.filter_sublist C, ?_, ?_⟩
  · unfold filteredView
    exact List.filter_congr fun c _ => matchesQuery_iff s.search c
  · intro h
    unfold filteredView
    rw [h]
    exact List.filter_eq_self.mpr fun c _ => matchesQuery_nil c

/-- Witness for `filtered_characterization`: with the empty default
query the filter keeps a concrete one-element collection. -/
theorem filtered_characterization_witness :
    filteredView initialState [{ postId := 1, id := 2, name := [], email := [], body := [] }] =
      [{ postId := 1, id := 2, name := [], email := [], body := [] }] :=
  (filtered_characterization [{ postId := 1, id := 2, name := [], email := [], body := [] }]
    initialState).2.2 rfl

lemma handleSort_fields (s : ViewState) (k : SortKey) :
    (handleSort s k).page = 1 ∧ (handleSort s k).pageSize = s.pageSize ∧
      (handleSort s k).search = s.search := by
  unfold handleSort
  split_ifs <;> exact ⟨rfl, rfl, rfl⟩

lemma one_le_pageBound (s : ViewState) (C : List Comment) : 1 ≤ pageBound s C :=
  le_max_left _ _

lemma pageBound_eq (s : ViewState) (C : List Comment) :
    pageBound s C = max 1 (totalPagesView s C) := by
  rw [totalPagesView_eq]
  rfl

lemma totalPages_le_pageBound (s : ViewState) (C : List Comment) :
    totalPagesView s C ≤ pageBound s C := by
  rw [pageBound_eq]
  exact le_max_right _ _

lemma pos_of_mem_allowed {n : Int} (h : n ∈ allowedPageSizes) : 0 < n := by
  simp only [allowedPageSizes, List.mem_cons, List.not_mem_nil, or_false] at h
  rcases h with h | h | h | h <;> rw [h] <;> decide

lemma jsCeilDiv_mono {a b : Nat} (ps : Int) (hps : 0 < ps) (h : a ≤ b) :
    jsCeilDiv a ps ≤ jsCeilDiv b ps := by
  unfold jsCeilDiv
  simp only [if_neg (by omega : ¬ ps < 0), if_neg (by omega : ¬ ps = 0)]
  exact_mod_cast Nat.div_le_div_right (by omega)

lemma pageNumButton_bounds {tp p : Int} {i : Nat} (_htp : 1 < tp) (_hp1 : 1 ≤ p)
    (hptp : p ≤ tp) (hi : (i : Int) < min 5 tp) :
    1 ≤ pageNumButton tp p i ∧ pageNumButton tp p i ≤ tp := by
  have hi0 : (0 : Int) ≤ (i : Int) := Int.natCast_nonneg i
  have hi5 : (i : Int) < 5 := lt_of_lt_of_le hi (min_le_left _ _)
  have hitp : (i : Int) < tp := lt_of_lt_of_le hi (min_le_right _ _)
  unfold pageNumButton
  split_ifs <;> omega

lemma reachable_inv (C : List Comment) (s : ViewState) (h : Reachable C s) :
    s.pageSize ∈ allowedPageSizes ∧ 1 ≤ s.page ∧ s.page ≤ pageBound s C := by
  induction h with
  | init => exact ⟨by decide, by decide, le_max_left _ _⟩
  | search q hr ih => exact ⟨ih.1, le_refl 1, le_max_left _ _⟩
  | clearSearch hr ih =>
    rename_i s'
    refine ⟨ih.1, ih.2.1, ?_⟩
    have hps : 0 < s'.pageSize := pos_of_mem_allowed ih.1
    have hC : filteredView (clearSearchOp s') C = C :=
      List.filter_eq_self.mpr fun c _ => matchesQuery_nil c
    have hlen : (filteredView s' C).length ≤ (filteredView (clearSearchOp s') C).length := by
      rw [hC]
      exact List.length_filter_le _ _
    calc (clearSearchOp s').page ≤ pageBound s' C := ih.2.2
      _ ≤ pageBound (clearSearchOp s') C :=
        max_le_max (le_refl 1) (jsCeilDiv_mono s'.pageSize hps hlen)
  | pageSizeSel hr hmem ih => exact ⟨hmem, le_refl 1, le_max_left _ _⟩
  | sort k hr ih =>
    rename_i s'
    obtain ⟨hp, hsz, hse⟩ := handleSort_fields s' k
    refine ⟨?_, ?_, ?_⟩
    · rw [hsz]
      exact ih.1
    · rw [hp]
    · rw [hp]
      have heq : pageBound (handleSort s' k) C = pageBound s' C := by
        unfold pageBound filteredView
        rw [hse, hsz]
      rw [heq]
      exact one_le_pageBound s' C
  | clearSort hr ih => exact ih
  | reset hr ih =>
    exact ⟨(by decide : (10 : Int) ∈ allowedPageSizes), le_refl 1, le_max_left _ _⟩
  | first hr htp ih => exact ⟨ih.1, le_refl 1, one_le_pageBound _ _⟩
  | prev hr htp ih =>
    rename_i s'
    refine ⟨ih.1, le_max_right _ _, ?_⟩
    show max (s'.page - 1) 1 ≤ pageBound (pagePrevOp s') C
    have heq : pageBound (pagePrevOp s') C = pageBound s' C := rfl
    rw [heq]
    have h1 := ih.2.2
    exact max_le (by omega) (one_le_pageBound s' C)
  | next hr htp ih =>
    rename_i s'
    refine ⟨ih.1, ?_, ?_⟩
    · show 1 ≤ min (s'.page + 1) (totalPagesView s' C)
      have h1 := ih.2.1
      exact le_min (by omega) (by omega)
    · show min (s'.page + 1) (totalPagesView s' C) ≤ pageBound (pageNextOp C s') C
      have heq : pageBound (pageNextOp C s') C = pageBound s' C := rfl
      rw [heq]
      exact (min_le_right _ _).trans (totalPages_le_pageBound s' C)
  | last hr htp ih =>
    rename_i s'
    refine ⟨ih.1, ?_, ?_⟩
    · show 1 ≤ totalPagesView s' C
      omega
    · show totalPagesView s' C ≤ pageBound (pageLastOp C s') C
      have heq : pageBound (pageLastOp C s') C = pageBound s' C := rfl
      rw [heq]
      exact totalPages_le_pageBound s' C
  | goto hr htp i hi ih =>
    rename_i s'
    have hptp : s'.page ≤ totalPagesView s' C := by
      have h1 := ih.2.2
      rw [pageBound_eq, max_eq_right (by omega : (1 : Int) ≤ totalPagesView s' C)] at h1
      exact h1
    obtain ⟨hb1, hb2⟩ := pageNumButton_bounds htp ih.2.1 hptp hi
    refine ⟨ih.1, hb1, ?_⟩
    show pageNumButton (totalPagesView s' C) s'.page i ≤ pageBound (pageGotoOp C s' i) C
    have heq : pageBound (pageGotoOp C s' i) C = pageBound s' C := rfl
    rw [heq]
    exact hb2.trans (totalPages_le_pageBound s' C)

/-- C3 (amended). Every state reachable through the rendered controls
keeps `page` within `[1, max(1, ceil(filteredCount / pageSize))]`: the
search, sort, page-size and reset handlers reset `page` to `1`, and the
pagination buttons only produce in-range values (`Previous`/`Next`
clamp with `max`/`min`).  There is, however, no general clamping
`setPage`, and hydration applies a persisted page with no clamping at
all (see the accompanying counterexample). -/
theorem reachable_page_within_bound (C : List Comment) (s : ViewState)
    (h : Reachable C s) : 1 ≤ s.page ∧ s.page ≤ pageBound s C :=
  ⟨(reachable_inv C s h).2.1, (reachable_inv C s h).2.2⟩

/-- Witness for `reachable_page_within_bound` at the initial state. -/
theorem reachable_page_within_bound_witness :
    1 ≤ initialState.page ∧ initialState.page ≤ pageBound initialState [] :=
  reachable_page_within_bound [] initialState Reachable.init

/-- C4 (amended). Every state reachable through the rendered controls
satisfies the coupling `sortKey = none ⇔ sortOrder = none`; hydration,
however, restores the two fields independently and can break the
coupling (see the accompanying counterexample). -/
theorem reachable_sort_coupled (C : List Comment) (s : ViewState)
    (h : Reachable C s) :
    s.sortKey = Option.none ↔ s.sortOrder = SortOrder.none := by
  induction h with
  | init => simp [initialState]
  | search q hr ih => exact ih
  | clearSearch hr ih => exact ih
  | pageSizeSel hr hmem ih => exact ih
  | sort k hr ih =>
    unfold handleSort
    split_ifs with h1 h2 h3
    · simp
    · simp only [ne_eq, not_not] at h1
      simp [h1]
    · simp only [ne_eq, not_not] at h1
      simp [h1]
    · simp
  | clearSort hr ih => simp [clearSortOp]
  | reset hr ih => simp [handleReset, initialState]
  | first hr htp ih => exact ih
  | prev hr htp ih => exact ih
  | next hr htp ih => exact ih
  | last hr htp ih => exact ih
  | goto hr htp i hi ih => exact ih

/-- Witness for `reachable_sort_coupled` at the initial state. -/
theorem reachable_sort_coupled_witness :
    initialState.sortKey = Option.none ↔ initialState.sortOrder = SortOrder.none :=
  reachable_sort_coupled [] initialState Reachable.init

lemma take_min (l : List α) (n : Nat) : l.take (min n l.length) = l.take n := by
  rcases le_total n l.length with h | h
  · rw [min_eq_left h]
  · rw [min_eq_right h, List.take_length, List.take_of_length_le h]

lemma jsSlice_eq (l : List α) (a b : Int) (ha : 0 ≤ a) (hab : a ≤ b) :
    jsSlice l a b = (l.drop a.toNat).take (b.toNat - a.toNat) := by
  unfold jsSlice jsSliceIdx
  rw [if_neg (by omega), if_neg (by omega), take_min]
  rcases le_total a.toNat l.length with h | h
  · rw [min_eq_left h]
    conv_rhs => rw [List.take_drop]
    have heq : a.toNat + (b.toNat - a.toNat) = b.toNat := by omega
    rw [heq]
  · rw [min_eq_right h]
    have h2 : (l.take b.toNat).length ≤ l.length := by
      rw [List.length_take]
      omega
    rw [List.drop_eq_nil_of_le h2, List.drop_eq_nil_of_le h, List.take_nil]

lemma take_chunk (l : List α) (m ps : Nat) :
    l.take m ++ (l.drop m).take ps = l.take (m + ps) := by
  have h1 : l.take m = (l.take (m + ps)).take m := by
    rw [List.take_take, min_eq_left (by omega)]
  rw [h1, List.take_drop, List.take_append_drop]

lemma join_chunks (l : List α) (ps : Nat) (n : Nat) :
    ((List.range n).map fun i => (l.drop (i * ps)).take ps).flatten = l.take (n * ps) := by
  induction n with
  | zero => simp
  | succ m ih =>
    rw [List.range_succ, List.map_append, List.flatten_append, ih]
    simp only [List.map_cons, List.map_nil, List.flatten_cons, List.flatten_nil,
      List.append_nil]
    rw [take_chunk]
    congr 1
    ring

lemma sortedView_set_page (s : ViewState) (C : List Comment) (p : Int) :
    sortedView { s with page := p } C = sortedView s C := by
  obtain ⟨q, pg, ps, sk, so⟩ := s
  cases sk <;> cases so <;> rfl

lemma paginated_drop_take (s : ViewState) (C : List Comment)
    (hps : 0 < s.pageSize) (hp : 1 ≤ s.page) :
    paginatedView s C =
      ((sortedView s C).drop ((s.page - 1) * s.pageSize).toNat).take s.pageSize.toNat := by
  unfold paginatedView
  have ha : 0 ≤ (s.page - 1) * s.pageSize := mul_nonneg (by omega) (by omega)
  have hab : (s.page - 1) * s.pageSize ≤ s.page * s.pageSize :=
    mul_le_mul_of_nonneg_right (by omega) (by omega)
  rw [jsSlice_eq _ _ _ ha hab]
  congr 1
  have h1 : s.page * s.pageSize = (s.page - 1) * s.pageSize + s.pageSize := by ring
  omega

lemma paginatedView_set_page (s : ViewState) (C : List Comment) (x : Int) :
    paginatedView { s with page := x } C =
      jsSlice (sortedView s C) ((x - 1) * s.pageSize) (x * s.pageSize) := by
  unfold paginatedView
  rw [sortedView_set_page]

lemma slice_page (l : List α) (p ps : Int) (hps : 0 < ps) (hp : 1 ≤ p) :
    jsSlice l ((p - 1) * ps) (p * ps) = (l.drop ((p - 1) * ps).toNat).take ps.toNat := by
  have ha : 0 ≤ (p - 1) * ps := mul_nonneg (by omega) (by omega)
  have hab : (p - 1) * ps ≤ p * ps := mul_le_mul_of_nonneg_right (by omega) (by omega)
  rw [jsSlice_eq _ _ _ ha hab]
  congr 1
  have h1 : p * ps = (p - 1) * ps + ps := by ring
  omega

lemma totalPagesView_nonneg (s : ViewState) (C : List Comment) (hps : 0 < s.pageSize) :
    0 ≤ totalPagesView s C := by
  unfold totalPagesView jsCeilDiv
  rw [if_neg (by omega), if_neg (by omega)]
  exact Int.natCast_nonneg _

/-- C8. The paginated view is the slice
`sorted[(page-1)*pageSize : page*pageSize]`; concatenating the pages
`1 .. totalPages` (same page size) reconstructs the sorted sequence
exactly; when the collection is non-empty the last page holds between
`1` and `pageSize` elements; when it is empty, page `1` is empty. -/
theorem paginate_reconstructs (C : List Comment) (s : ViewState)
    (hps : 0 < s.pageSize) (hp : 1 ≤ s.page) :
    paginatedView s C =
      ((sortedView s C).drop ((s.page - 1) * s.pageSize).toNat).take s.pageSize.toNat ∧
    ((List.range (totalPagesView s C).toNat).map
        fun i : Nat => paginatedView { s with page := (i : Int) + 1 } C).flatten =
      sortedView s C ∧
    (0 < (sortedView s C).length →
      1 ≤ (paginatedView { s with page := totalPagesView s C } C).length ∧
      (paginatedView { s with page := totalPagesView s C } C).length ≤ s.pageSize.toNat) ∧
    ((sortedView s C).length = 0 → paginatedView { s with page := 1 } C = []) := by
  have hps' : ((s.pageSize.toNat : Nat) : Int) = s.pageSize := Int.toNat_of_nonneg (by omega)
  obtain ⟨hc1, hc2, hc3⟩ := jsCeilDiv_spec (sortedView s C).length s.pageSize hps
  have htpdef : totalPagesView s C = jsCeilDiv (sortedView s C).length s.pageSize := rfl
  rw [← htpdef] at hc1 hc2 hc3
  have htp0 : 0 ≤ totalPagesView s C := totalPagesView_nonneg s C hps
  have hpageEq : ∀ i : Nat, paginatedView { s with page := (i : Int) + 1 } C =
      ((sortedView s C).drop (i * s.pageSize.toNat)).take s.pageSize.toNat := by
    intro i
    rw [paginatedView_set_page,
      slice_page _ _ _ hps (by have := Int.natCast_nonneg i; omega)]
    have h1 : ((i : Int) + 1 - 1) * s.pageSize = ((i * s.pageSize.toNat : Nat) : Int) := by
      push_cast
      rw [hps']
      ring
    rw [h1, Int.toNat_ofNat]
  refine ⟨slice_page (sortedView s C) s.page s.pageSize hps hp, ?_, ?_, ?_⟩
  · calc ((List.range (totalPagesView s C).toNat).map
          fun i : Nat => paginatedView { s with page := (i : Int) + 1 } C).flatten
        = ((List.range (totalPagesView s C).toNat).map
            fun i : Nat =>
              ((sortedView s C).drop (i * s.pageSize.toNat)).take s.pageSize.toNat).flatten := by
          rw [List.map_congr_left fun i _ => hpageEq i]
      _ = (sortedView s C).take ((totalPagesView s C).toNat * s.pageSize.toNat) :=
          join_chunks _ _ _
      _ = sortedView s C := List.take_of_length_le (by
          have hcast : (((totalPagesView s C).toNat * s.pageSize.toNat : Nat) : Int) =
              totalPagesView s C * s.pageSize := by
            rw [Nat.cast_mul, Int.toNat_of_nonneg htp0, hps']
          omega)
  · intro hlen
    have hlast := hc3 hlen
    have htp1 : 1 ≤ totalPagesView s C := by
      have hne : ¬ totalPagesView s C = 0 := fun h => absurd (hc2.mp h) (by omega)
      omega
    rw [paginatedView_set_page, slice_page _ _ _ hps (by omega),
      List.length_take, List.length_drop]
    have hA : 0 ≤ (totalPagesView s C - 1) * s.pageSize := mul_nonneg (by omega) (by omega)
    have hcast : ((((totalPagesView s C - 1) * s.pageSize).toNat : Nat) : Int) =
        (totalPagesView s C - 1) * s.pageSize := Int.toNat_of_nonneg hA
    constructor
    · refine le_min (by omega) ?_
      omega
    · exact min_le_left _ _
  · intro hlen
    have hnil : sortedView s C = [] := List.length_eq_zero.mp hlen
    rw [paginatedView_set_page, hnil]
    simp [jsSlice]

/-- Witness for `paginate_reconstructs`: the slice form of the default
first page over a one-element collection. -/
theorem paginate_reconstructs_witness :
    paginatedView initialState [{ postId := 5, id := 3, name := [], email := [], body := [] }] =
      ((sortedView initialState [{ postId := 5, id := 3, name := [], email := [], body := [] }]).drop
          ((initialState.page - 1) * initialState.pageSize).toNat).take
        initialState.pageSize.toNat :=
  (paginate_reconstructs [{ postId := 5, id := 3, name := [], email := [], body := [] }]
    initialState (by decide) (by decide)).1

lemma keyLe_trans (k : SortKey) : ∀ a b c : Comment, keyLe k a b → keyLe k b c → keyLe k a c := by
  cases k <;> intro a b c h1 h2 <;>
    simp only [keyLe, decide_eq_true_eq] at h1 h2 ⊢ <;> exact le_trans h1 h2

lemma keyLe_total (k : SortKey) : ∀ a b : Comment, keyLe k a b || keyLe k b a := by
  cases k <;> intro a b <;>
    simp only [keyLe, Bool.or_eq_true, decide_eq_true_eq] <;> exact le_total _ _

lemma keyLe_antisymm {k : SortKey} {a b : Comment} (h1 : keyLe k a b) (h2 : keyLe k b a) :
    keyEq k a b = true := by
  cases k <;> simp only [keyLe, decide_eq_true_eq] at h1 h2 <;>
    simp only [keyEq, decide_eq_true_eq] <;> exact le_antisymm h1 h2

lemma keyEq_symm (k : SortKey) (a b : Comment) : keyEq k a b = keyEq k b a := by
  cases k <;> exact decide_eq_decide.mpr ⟨Eq.symm, Eq.symm⟩

lemma sortLe_of_keyEq {k : SortKey} (o : SortOrder) {a b c : Comment}
    (h1 : keyEq k a c = true) (h2 : keyEq k b c = true) : sortLe k o a b = true := by
  have hab : keyEq k a b = true := by
    cases k <;> simp only [keyEq, decide_eq_true_eq] at h1 h2 ⊢ <;> rw [h1, h2]
  cases o <;> cases k <;>
    simp only [sortLe, keyLe, keyEq, decide_eq_true_eq] at hab ⊢ <;>
    first
      | exact le_of_eq hab
      | exact le_of_eq hab.symm

lemma sortLe_trans (k : SortKey) (o : SortOrder) :
    ∀ a b c : Comment, sortLe k o a b → sortLe k o b c → sortLe k o a c := by
  intro a b c h1 h2
  cases o <;> simp only [sortLe] at h1 h2 ⊢
  · exact keyLe_trans k a b c h1 h2
  · exact keyLe_trans k c b a h2 h1
  · exact keyLe_trans k c b a h2 h1

lemma sortLe_total (k : SortKey) (o : SortOrder) :
    ∀ a b : Comment, sortLe k o a b || sortLe k o b a := by
  intro a b
  cases o <;> simp only [sortLe]
  · exact keyLe_total k a b
  · rw [Bool.or_comm]
    exact keyLe_total k a b
  · rw [Bool.or_comm]
    exact keyLe_total k a b

lemma mergeSort_filter_stable {le : Comment → Comment → Bool}
    (trans : ∀ a b c : Comment, le a b → le b c → le a c)
    (total : ∀ a b : Comment, le a b || le b a)
    (l : List Comment) (p : Comment → Bool)
    (hp : ∀ a b : Comment, p a → p b → le a b = true) :
    (l.mergeSort le).filter p = l.filter p := by
  have hpair : (l.filter p).Pairwise fun a b => le a b := by
    rw [List.pairwise_iff_forall_sublist]
    intro a b hsub
    have ha : a ∈ l.filter p := hsub.subset (by simp)
    have hb : b ∈ l.filter p := hsub.subset (by simp)
    exact hp a b (List.mem_filter.mp ha).2 (List.mem_filter.mp hb).2
  have hsubl : List.Sublist (l.filter p) (l.mergeSort le) :=
    List.sublist_mergeSort trans total hpair (List.filter_sublist l)
  have hidem : (l.filter p).filter p = l.filter p := by
    simp [List.filter_filter, Bool.and_self]
  have hsub2 : List.Sublist (l.filter p) ((l.mergeSort le).filter p) := by
    have h := hsubl.filter p
    rwa [hidem] at h
  have hperm : List.Perm ((l.mergeSort le).filter p) (l.filter p) :=
    (List.mergeSort_perm l le).filter p
  exact (hsub2.eq_of_length hperm.length_eq.symm).symm

lemma eq_of_perm_of_pairwise {α : Type} {r : α → α → Prop} :
    ∀ {l₁ l₂ : List α}, List.Perm l₁ l₂ → l₁.Pairwise r → l₂.Pairwise r →
      (∀ a ∈ l₁, ∀ b ∈ l₁, r a b → r b a → a = b) → l₁ = l₂ := by
  intro l₁
  induction l₁ with
  | nil =>
    intro l₂ hp _ _ _
    exact hp.nil_eq
  | cons a t ih =>
    intro l₂ hp h1 h2 hanti
    cases l₂ with
    | nil => exact absurd hp.eq_nil (by simp)
    | cons b u =>
      by_cases hab : a = b
      · subst hab
        have ht : List.Perm t u := hp.cons_inv
        have hrec := ih ht h1.tail h2.tail fun x hx y hy =>
          hanti x (List.mem_cons_of_mem _ hx) y (List.mem_cons_of_mem _ hy)
        rw [hrec]
      · exfalso
        have hbt : b ∈ t := by
          rcases List.mem_cons.mp (hp.symm.subset (List.mem_cons_self b u)) with h | h
          · exact absurd h.symm hab
          · exact h
        have hau : a ∈ u := by
          rcases List.mem_cons.mp (hp.subset (List.mem_cons_self a t)) with h | h
          · exact absurd h hab
          · exact h
        have hrab : r a b := List.rel_of_pairwise_cons h1 hbt
        have hrba : r b a := List.rel_of_pairwise_cons h2 hau
        exact hab (hanti a (List.mem_cons_self a t) b (List.mem_cons_of_mem a hbt) hrab hrba)

lemma sortedView_sort (s : ViewState) (C : List Comment) (k : SortKey) (o : SortOrder)
    (hk : s.sortKey = Option.some k) (ho : o ≠ SortOrder.none) :
    sortedView { s with sortOrder := o } C = (filteredView s C).mergeSort (sortLe k o) := by
  obtain ⟨q, pg, ps, sk, so⟩ := s
  cases sk with
  | none => simp at hk
  | some kk =>
    obtain rfl : kk = k := by simpa using hk
    cases o with
    | asc => rfl
    | desc => rfl
    | none => exact absurd rfl ho

/-- C7. With a sort key active: the sorted view is a permutation of the
filtered view (sorting operates on the filtered result, never the raw
input); the sort is stable in both directions (comments with equal key
values keep their filtered order, stated as equality of the equal-key
subsequences); ascending order is numeric on `postId` and lexicographic
on `name`/`email`; and when no two filtered comments share a key value,
the descending result is exactly the reverse of the ascending one. -/
theorem sorting_spec (C : List Comment) (s : ViewState) (k : SortKey)
    (hk : s.sortKey = Option.some k) :
    List.Perm (sortedView { s with sortOrder := SortOrder.asc } C) (filteredView s C) ∧
    (∀ c : Comment,
      (sortedView { s with sortOrder := SortOrder.asc } C).filter (fun x => keyEq k x c) =
        (filteredView s C).filter (fun x => keyEq k x c)) ∧
    (∀ c : Comment,
      (sortedView { s with sortOrder := SortOrder.desc } C).filter (fun x => keyEq k x c) =
        (filteredView s C).filter (fun x => keyEq k x c)) ∧
    (k = SortKey.postId →
      (sortedView { s with sortOrder := SortOrder.asc } C).Pairwise
        fun a b => a.postId ≤ b.postId) ∧
    (k = SortKey.name →
      (sortedView { s with sortOrder := SortOrder.asc } C).Pairwise
        fun a b => a.name ≤ b.name) ∧
    (k = SortKey.email →
      (sortedView { s with sortOrder := SortOrder.asc } C).Pairwise
        fun a b => a.email ≤ b.email) ∧
    ((filteredView s C).Pairwise (fun a b => keyEq k a b = false) →
      sortedView { s with sortOrder := SortOrder.desc } C =
        (sortedView { s with sortOrder := SortOrder.asc } C).reverse) := by
  have hasc := sortedView_sort s C k SortOrder.asc hk (by decide)
  have hdesc := sortedView_sort s C k SortOrder.desc hk (by decide)
  rw [hasc, hdesc]
  set F := filteredView s C with hF
  refine ⟨?_, ?_, ?_, ?_, ?_, ?_, ?_⟩
  · exact List.mergeSort_perm F _
  · intro c
    exact mergeSort_filter_stable (sortLe_trans k SortOrder.asc) (sortLe_total k SortOrder.asc)
      F _ fun a b ha hb => sortLe_of_keyEq _ ha hb
  · intro c
    exact mergeSort_filter_stable (sortLe_trans k SortOrder.desc) (sortLe_total k SortOrder.desc)
      F _ fun a b ha hb => sortLe_of_keyEq _ ha hb
  · intro hkk
    subst hkk
    exact (List.sorted_mergeSort (sortLe_trans SortKey.postId SortOrder.asc)
      (sortLe_total SortKey.postId SortOrder.asc) F).imp fun h => by
        simpa [sortLe, keyLe] using h
  · intro hkk
    subst hkk
    exact (List.sorted_mergeSort (sortLe_trans SortKey.name SortOrder.asc)
      (sortLe_total SortKey.name SortOrder.asc) F).imp fun h => by
        simpa [sortLe, keyLe] using h
  · intro hkk
    subst hkk
    exact (List.sorted_mergeSort (sortLe_trans SortKey.email SortOrder.asc)
      (sortLe_total SortKey.email SortOrder.asc) F).imp fun h => by
        simpa [sortLe, keyLe] using h
  · intro hnd
    have hsymm : Symmetric fun a b : Comment => keyEq k a b = false := by
      intro x y hxy
      rwa [keyEq_symm]
    apply eq_of_perm_of_pairwise (r := fun a b => sortLe k SortOrder.desc a b = true)
    · exact (List.mergeSort_perm F _).trans
        ((List.mergeSort_perm F _).symm.trans (List.reverse_perm _).symm)
    · exact List.sorted_mergeSort (sortLe_trans k SortOrder.desc)
        (sortLe_total k SortOrder.desc) F
    · rw [List.pairwise_reverse]
      exact (List.sorted_mergeSort (sortLe_trans k SortOrder.asc)
        (sortLe_total k SortOrder.asc) F).imp fun h => h
    · intro a ha b hb h1 h2
      have ha' : a ∈ F := List.mem_mergeSort.mp ha
      have hb' : b ∈ F := List.mem_mergeSort.mp hb
      have hEq : keyEq k a b = true := keyLe_antisymm h2 h1
      by_contra hne
      have hfalse : keyEq k a b = false := hnd.forall hsymm ha' hb' hne
      rw [hEq] at hfalse
      exact absurd hfalse (by decide)

/-- A state with the `postId` column sort active, used to witness the
sorting properties on a concrete input. -/
def sortDemoState : ViewState := { initialState with sortKey := Option.some SortKey.postId }

/-- Witness for `sorting_spec`: on the empty collection with the
`postId` key active, descending is the reverse of ascending. -/
theorem sorting_spec_witness :
    sortedView { sortDemoState with sortOrder := SortOrder.desc } [] =
      (sortedView { sortDemoState with sortOrder := SortOrder.asc } []).reverse :=
  (sorting_spec [] sortDemoState SortKey.postId rfl).2.2.2.2.2.2 List.Pairwise.nil

/-- Witness for `hydrate_applies_values_unvalidated` at the stored page
size `37`. -/
theorem hydrate_applies_values_unvalidated_witness :
    hydrate { emptyStore with pageSize := Option.some (jsStringOfInt 37) } =
      Option.some { initialState with pageSize := 37 } :=
  hydrate_applies_values_unvalidated.2.1 37

/-- Witness for `persist_hydrate_roundtrip` at the initial state. -/
theorem persist_hydrate_roundtrip_witness :
    hydrate (persist initialState) = Option.some initialState :=
  persist_hydrate_roundtrip initialState
